import Mathlib

/-!
Verification development for the Omnipair dApp's indexer aggregation and
caching layer.  JavaScript numbers are embedded as exact rationals (ℚ);
timestamps (millisecond epoch values produced by `Date.now()` /
`new Date(s).getTime()`) are embedded as integers (ℤ).  A raw JSON value that
`toNumber` would parse to a finite number is embedded as `some q`; a value
that is absent, non-numeric, `NaN` or infinite is embedded as `none`.
-/

namespace Omnipair

/-- clamp from src/lib/formatters.ts: `Math.min(max, Math.max(min, value))`.
The bound parameters are named `lo`/`hi` because `min`/`max` are the order
operations in Lean. -/
def clamp (value lo hi : ℚ) : ℚ :=
  min hi (max lo value)

/-- toNumber from src/lib/formatters.ts.  On the embedding of raw JSON values
(`some q` for a value parsing to the finite number `q`, `none` otherwise) every
non-numeric input collapses to 0, exactly as the source returns 0 for
non-number/non-string inputs, unparsable strings and non-finite numbers. -/
def toNumber (value : Option ℚ) : ℚ :=
  value.getD 0

/-- sumNumberish from src/lib/formatters.ts: fold `toNumber` over the
arguments, starting from 0. -/
def sumNumberish (values : List (Option ℚ)) : ℚ :=
  values.foldl (fun total value => total + toNumber value) 0

/-- RiskLabel from src/lib/riskModel.ts. -/
inductive RiskLabel
  | Low
  | Moderate
  | High
  | Critical
deriving DecidableEq, Repr

/-- RiskInputs from src/lib/riskModel.ts. -/
structure RiskInputs where
  utilizationStress : ℚ
  debtSkewStress : ℚ
  eventMomentumStress : ℚ
deriving DecidableEq, Repr

/-- RiskResult from src/lib/riskModel.ts. -/
structure RiskResult where
  score : ℚ
  label : RiskLabel
deriving DecidableEq, Repr

/-- labelRisk from src/lib/riskModel.ts. -/
def labelRisk (score : ℚ) : RiskLabel :=
  if score ≥ 75 then .Critical
  else if score ≥ 55 then .High
  else if score ≥ 30 then .Moderate
  else .Low

/-- computeCompositeRiskScore from src/lib/riskModel.ts. -/
def computeCompositeRiskScore (inputs : RiskInputs) : RiskResult :=
  let utilization := clamp inputs.utilizationStress 0 100
  let skew := clamp inputs.debtSkewStress 0 100
  let momentum := clamp inputs.eventMomentumStress 0 100
  let score := clamp (utilization * 0.45 + skew * 0.35 + momentum * 0.2) 0 100
  { score := score, label := labelRisk score }

/-- C2: computeCompositeRiskScore clamps each of the three stress inputs to
[0,100], returns score = clamp(0.45*utilization + 0.35*skew + 0.20*momentum,
0, 100), labels the score by the high-to-low thresholds 75/55/30
(Critical/High/Moderate, otherwise Low); inputs (100,100,100) yield score 100
with label Critical and inputs (0,0,0) yield score 0 with label Low. -/
theorem computeCompositeRiskScore_spec (u s m : ℚ) :
    (computeCompositeRiskScore ⟨u, s, m⟩).score =
      clamp (0.45 * clamp u 0 100 + 0.35 * clamp s 0 100 + 0.2 * clamp m 0 100) 0 100
    ∧ (computeCompositeRiskScore ⟨u, s, m⟩).label =
      (if (computeCompositeRiskScore ⟨u, s, m⟩).score ≥ 75 then RiskLabel.Critical
       else if (computeCompositeRiskScore ⟨u, s, m⟩).score ≥ 55 then RiskLabel.High
       else if (computeCompositeRiskScore ⟨u, s, m⟩).score ≥ 30 then RiskLabel.Moderate
       else RiskLabel.Low)
    ∧ computeCompositeRiskScore ⟨100, 100, 100⟩ = ⟨100, RiskLabel.Critical⟩
    ∧ computeCompositeRiskScore ⟨0, 0, 0⟩ = ⟨0, RiskLabel.Low⟩ := by
  refine ⟨?_, rfl, ?_, ?_⟩
  · show clamp (clamp u 0 100 * 0.45 + clamp s 0 100 * 0.35 + clamp m 0 100 * 0.2) 0 100 = _
    ring_nf
  · simp only [computeCompositeRiskScore, clamp, labelRisk, RiskResult.mk.injEq]
    norm_num
  · simp only [computeCompositeRiskScore, clamp, labelRisk, RiskResult.mk.injEq]
    norm_num

/-- quantile from src/PoolDetail.tsx: empty sample yields 0; otherwise sort a
copy ascending, take the fractional index `pos = (length - 1) * q`, and
linearly interpolate between the order statistics at `floor pos` and
`floor pos + 1` (the latter falling back to the former past the end).  `base`
is `Math.floor(pos)`; for `q ≥ 0` and a non-empty sample `pos ≥ 0`, so the
`Int.toNat` conversion to a list index is exact (for `q < 0` the source
indexes out of range and produces NaN, outside the spec's q ∈ [0,1] domain). -/
def quantile (values : List ℚ) (q : ℚ) : ℚ :=
  if values.isEmpty then 0
  else
    let sorted := List.insertionSort (· ≤ ·) values
    let pos := ((sorted.length : ℚ) - 1) * q
    let base := (⌊pos⌋).toNat
    let rest := pos - (base : ℚ)
    let left := sorted.getD base 0
    let right := sorted.getD (base + 1) left
    left + rest * (right - left)

/-- toBucket from src/PoolDetail.tsx: 0 for an empty sample, otherwise the
index of the first 20/40/60/80th-percentile break point at or above the value,
and 4 when the value exceeds the 80th percentile. -/
def toBucket (values : List ℚ) (value : ℚ) : ℕ :=
  if values.isEmpty then 0
  else
    let q20 := quantile values 0.2
    let q40 := quantile values 0.4
    let q60 := quantile values 0.6
    let q80 := quantile values 0.8
    if value ≤ q20 then 0
    else if value ≤ q40 then 1
    else if value ≤ q60 then 2
    else if value ≤ q80 then 3
    else 4

theorem quantile_zero_eq_head (s : List ℚ) (hs : s ≠ []) :
    quantile s 0 = (List.insertionSort (· ≤ ·) s).getD 0 0 := by
  have hne : s.isEmpty = false := by simpa [List.isEmpty_iff] using hs
  simp [quantile, hne]

theorem quantile_one_eq_last (s : List ℚ) (hs : s ≠ []) :
    quantile s 1 = (List.insertionSort (· ≤ ·) s).getD (s.length - 1) 0 := by
  have hne : s.isEmpty = false := by simpa [List.isEmpty_iff] using hs
  have hlen : (List.insertionSort (· ≤ ·) s).length = s.length :=
    List.length_insertionSort _ s
  have hpos : 1 ≤ s.length := List.length_pos.mpr hs
  have hfloor : ⌊((s.length : ℚ) - 1) * 1⌋ = (s.length : ℤ) - 1 := by
    rw [mul_one]
    rw [show ((s.length : ℚ) - 1) = ((((s.length : ℤ) - 1 : ℤ) : ℚ)) by push_cast; ring]
    exact Int.floor_intCast _
  have htonat : (⌊((s.length : ℚ) - 1) * 1⌋).toNat = s.length - 1 := by
    rw [hfloor]
    omega
  have hrest : ((s.length : ℚ) - 1) * 1 - ((s.length - 1 : ℕ) : ℚ) = 0 := by
    have : ((s.length - 1 : ℕ) : ℚ) = (s.length : ℚ) - 1 := by
      push_cast [hpos]
      ring
    rw [this]
    ring
  simp only [quantile, hne, Bool.false_eq_true, if_false, hlen, htonat, hrest, zero_mul,
    add_zero]

theorem sorted_getD_zero_min (s : List ℚ) (hs : s ≠ []) :
    (List.insertionSort (· ≤ ·) s).getD 0 0 ∈ s ∧
    ∀ x ∈ s, (List.insertionSort (· ≤ ·) s).getD 0 0 ≤ x := by
  have hperm : List.Perm (List.insertionSort (· ≤ ·) s) s := List.perm_insertionSort _ s
  have hsorted : (List.insertionSort (· ≤ ·) s).Sorted (· ≤ ·) :=
    List.sorted_insertionSort _ s
  rcases ht : List.insertionSort (· ≤ ·) s with _ | ⟨a, l⟩
  · have h0 : s.length = 0 := by simpa [ht] using hperm.length_eq.symm
    exact (hs (List.length_eq_zero.mp h0)).elim
  · rw [ht] at hperm hsorted
    have ha : a ∈ s := hperm.mem_iff.mp (List.mem_cons_self a l)
    refine ⟨by simpa using ha, ?_⟩
    intro x hx
    have hx' : x ∈ a :: l := hperm.symm.mem_iff.mp hx
    rcases List.mem_cons.mp hx' with h | h
    · simp [h]
    · simpa using (List.sorted_cons.mp hsorted).1 x h

theorem sorted_getD_last_max (s : List ℚ) (hs : s ≠ []) :
    (List.insertionSort (· ≤ ·) s).getD (s.length - 1) 0 ∈ s ∧
    ∀ x ∈ s, x ≤ (List.insertionSort (· ≤ ·) s).getD (s.length - 1) 0 := by
  have hperm : List.Perm (List.insertionSort (· ≤ ·) s) s := List.perm_insertionSort _ s
  have hsorted : (List.insertionSort (· ≤ ·) s).Sorted (· ≤ ·) :=
    List.sorted_insertionSort _ s
  have hlen : (List.insertionSort (· ≤ ·) s).length = s.length :=
    List.length_insertionSort _ s
  have hpos : 1 ≤ s.length := List.length_pos.mpr hs
  have hidx : s.length - 1 < (List.insertionSort (· ≤ ·) s).length := by omega
  rw [List.getD_eq_getElem _ _ hidx]
  constructor
  · exact hperm.mem_iff.mp (List.getElem_mem hidx)
  · intro x hx
    have hx' : x ∈ List.insertionSort (· ≤ ·) s := hperm.symm.mem_iff.mp hx
    rcases List.mem_iff_getElem.mp hx' with ⟨i, hi, hxi⟩
    rcases Nat.lt_or_ge i (s.length - 1) with hlt | hge
    · have := List.pairwise_iff_getElem.mp hsorted i (s.length - 1) hi hidx hlt
      rw [← hxi]
      exact this
    · have : i = s.length - 1 := by omega
      subst this
      rw [← hxi]

/-- C3: quantile of the empty sample is 0 for every q; for a non-empty sample
quantile(s, 0) is the minimum of s and quantile(s, 1) is the maximum of s
(stated as: a member of s that bounds every member from below, respectively
above).  Purity of the embedding reflects that the source sorts a copy and
never mutates the caller's array. -/
theorem quantile_spec (s : List ℚ) (q : ℚ) (hs : s ≠ []) :
    quantile [] q = 0
    ∧ (quantile s 0 ∈ s ∧ ∀ x ∈ s, quantile s 0 ≤ x)
    ∧ (quantile s 1 ∈ s ∧ ∀ x ∈ s, x ≤ quantile s 1) := by
  refine ⟨rfl, ?_, ?_⟩
  · rw [quantile_zero_eq_head s hs]
    exact sorted_getD_zero_min s hs
  · rw [quantile_one_eq_last s hs]
    exact sorted_getD_last_max s hs

/-- Witness for C3 at the concrete sample [3, 1, 2] and q = 1/2. -/
theorem quantile_spec_witness :
    ([(3 : ℚ), 1, 2] ≠ [])
    ∧ (quantile [] (1/2) = 0
       ∧ (quantile [(3 : ℚ), 1, 2] 0 ∈ [(3 : ℚ), 1, 2]
          ∧ ∀ x ∈ [(3 : ℚ), 1, 2], quantile [(3 : ℚ), 1, 2] 0 ≤ x)
       ∧ (quantile [(3 : ℚ), 1, 2] 1 ∈ [(3 : ℚ), 1, 2]
          ∧ ∀ x ∈ [(3 : ℚ), 1, 2], x ≤ quantile [(3 : ℚ), 1, 2] 1)) :=
  ⟨by simp, quantile_spec [(3 : ℚ), 1, 2] (1/2) (by simp)⟩

/-- Linear interpolation at fractional index pos over a list, exactly the
body of quantile after the sort: left/right order statistics at floor pos and
floor pos + 1, the right one falling back to the left past the end. -/
def interpAt (t : List ℚ) (pos : ℚ) : ℚ :=
  let base := (⌊pos⌋).toNat
  let rest := pos - (base : ℚ)
  let left := t.getD base 0
  let right := t.getD (base + 1) left
  left + rest * (right - left)

theorem sorted_getD_le_getD (t : List ℚ) (hsorted : t.Sorted (· ≤ ·)) (i j : ℕ)
    (hij : i ≤ j) (hj : j < t.length) : t.getD i 0 ≤ t.getD j 0 := by
  have hi : i < t.length := lt_of_le_of_lt hij hj
  rw [List.getD_eq_getElem _ _ hi, List.getD_eq_getElem _ _ hj]
  rcases Nat.eq_or_lt_of_le hij with rfl | hlt
  · exact le_refl _
  · exact List.pairwise_iff_getElem.mp hsorted i j hi hj hlt

theorem interpAt_mono (t : List ℚ) (hsorted : t.Sorted (· ≤ ·)) (pos pos' : ℚ)
    (h0 : 0 ≤ pos) (hle : pos ≤ pos') (htop : pos' ≤ (t.length : ℚ) - 1) :
    interpAt t pos ≤ interpAt t pos' := by
  have h0' : (0 : ℚ) ≤ pos' := le_trans h0 hle
  have hb0 : 0 ≤ ⌊pos⌋ := Int.floor_nonneg.mpr h0
  have hb0' : 0 ≤ ⌊pos'⌋ := Int.floor_nonneg.mpr h0'
  have hbb : ⌊pos⌋ ≤ ⌊pos'⌋ := Int.floor_le_floor hle
  have hlen1 : 1 ≤ t.length := by
    by_contra h
    have hz : t.length = 0 := by omega
    rw [hz] at htop
    norm_num at htop
    linarith
  have hfloortop : ⌊pos'⌋ ≤ (t.length : ℤ) - 1 := by
    have h1 : ⌊pos'⌋ ≤ ⌊((t.length : ℚ) - 1)⌋ := Int.floor_le_floor htop
    rwa [show ((t.length : ℚ) - 1) = (((t.length : ℤ) - 1 : ℤ) : ℚ) by push_cast; ring,
      Int.floor_intCast] at h1
  have hbase_le : (⌊pos⌋).toNat ≤ (⌊pos'⌋).toNat := by omega
  have hbase'_lt : (⌊pos'⌋).toNat < t.length := by omega
  have hbase_lt : (⌊pos⌋).toNat < t.length := lt_of_le_of_lt hbase_le hbase'_lt
  have hcast : (((⌊pos⌋).toNat : ℚ)) = ((⌊pos⌋ : ℤ) : ℚ) := by
    exact_mod_cast congrArg (fun z : ℤ => (z : ℚ)) (Int.toNat_of_nonneg hb0)
  have hcast' : (((⌊pos'⌋).toNat : ℚ)) = ((⌊pos'⌋ : ℤ) : ℚ) := by
    exact_mod_cast congrArg (fun z : ℤ => (z : ℚ)) (Int.toNat_of_nonneg hb0')
  have hrest0 : 0 ≤ pos - (((⌊pos⌋).toNat : ℕ) : ℚ) := by
    have h := Int.floor_le pos
    rw [hcast]
    linarith
  have hrest1 : pos - (((⌊pos⌋).toNat : ℕ) : ℚ) ≤ 1 := by
    have h := Int.lt_floor_add_one pos
    rw [hcast]
    linarith
  have hrest0' : 0 ≤ pos' - (((⌊pos'⌋).toNat : ℕ) : ℚ) := by
    have h := Int.floor_le pos'
    rw [hcast']
    linarith
  have hright_ge : ∀ k : ℕ, k < t.length →
      t.getD k 0 ≤ t.getD (k + 1) (t.getD k 0) := by
    intro k hk
    rcases Nat.lt_or_ge (k + 1) t.length with hk1 | hk1
    · rw [List.getD_eq_getElem _ _ hk1, List.getD_eq_getElem _ _ hk]
      exact List.pairwise_iff_getElem.mp hsorted k (k + 1) hk hk1 (Nat.lt_succ_self k)
    · rw [List.getD_eq_default _ _ hk1]
  simp only [interpAt]
  rcases Nat.eq_or_lt_of_le hbase_le with heq | hlt
  · rw [heq]
    have hr := hright_ge (⌊pos'⌋).toNat hbase'_lt
    have hrests : pos - (((⌊pos'⌋).toNat : ℕ) : ℚ) ≤ pos' - (((⌊pos'⌋).toNat : ℕ) : ℚ) := by
      linarith
    nlinarith [hr, hrests, heq ▸ hrest0]
  · have hstep : (⌊pos⌋).toNat + 1 < t.length := by omega
    have hlr : t.getD (⌊pos⌋).toNat 0 ≤ t.getD ((⌊pos⌋).toNat + 1) 0 :=
      sorted_getD_le_getD t hsorted _ _ (Nat.le_succ _) hstep
    have hrightD : t.getD ((⌊pos⌋).toNat + 1) (t.getD (⌊pos⌋).toNat 0) =
        t.getD ((⌊pos⌋).toNat + 1) 0 := by
      rw [List.getD_eq_getElem _ _ hstep, List.getD_eq_getElem _ _ hstep]
    have hmid : t.getD ((⌊pos⌋).toNat + 1) 0 ≤ t.getD (⌊pos'⌋).toNat 0 :=
      sorted_getD_le_getD t hsorted _ _ (by omega) hbase'_lt
    have hr' := hright_ge (⌊pos'⌋).toNat hbase'_lt
    rw [hrightD]
    nlinarith [hlr, hmid, hr', hrest0, hrest1, hrest0']

theorem quantile_mono (s : List ℚ) (q q' : ℚ) (hq : 0 ≤ q) (hqq : q ≤ q')
    (hq1 : q' ≤ 1) : quantile s q ≤ quantile s q' := by
  by_cases hemp : s.isEmpty
  · simp [quantile, hemp]
  · have hne : s.isEmpty = false := by simpa using hemp
    have hs : s ≠ [] := fun h => by simp [h] at hne
    have hlen : 1 ≤ (List.insertionSort (· ≤ ·) s).length := by
      rw [List.length_insertionSort]
      exact List.length_pos.mpr hs
    have hn1 : (1 : ℚ) ≤ ((List.insertionSort (· ≤ ·) s).length : ℚ) := by
      exact_mod_cast hlen
    have hquant : ∀ r : ℚ, quantile s r =
        interpAt (List.insertionSort (· ≤ ·) s)
          ((((List.insertionSort (· ≤ ·) s).length : ℚ) - 1) * r) := by
      intro r
      simp only [quantile, interpAt, hne, Bool.false_eq_true, if_false]
    rw [hquant q, hquant q']
    apply interpAt_mono _ (List.sorted_insertionSort _ s)
    · exact mul_nonneg (by linarith) hq
    · exact mul_le_mul_of_nonneg_left hqq (by linarith)
    · calc (((List.insertionSort (· ≤ ·) s).length : ℚ) - 1) * q'
          ≤ (((List.insertionSort (· ≤ ·) s).length : ℚ) - 1) * 1 :=
            mul_le_mul_of_nonneg_left hq1 (by linarith)
        _ = ((List.insertionSort (· ≤ ·) s).length : ℚ) - 1 := mul_one _

/-- C4: for a fixed sample, toBucket is monotone non-decreasing in the value,
always lands in {0,1,2,3,4}, maps a value at or below the 20th percentile to
bucket 0, between consecutive 20/40/60/80th percentiles to buckets 1-3, above
the 80th percentile to bucket 4, and returns 0 for every value when the
sample is empty. -/
theorem toBucket_spec (s : List ℚ) (v w : ℚ) (hvw : v ≤ w) :
    toBucket s v ≤ toBucket s w
    ∧ toBucket s v ≤ 4
    ∧ (∀ u : ℚ, toBucket [] u = 0)
    ∧ (s ≠ [] →
        (v ≤ quantile s 0.2 → toBucket s v = 0)
        ∧ (quantile s 0.2 < v → v ≤ quantile s 0.4 → toBucket s v = 1)
        ∧ (quantile s 0.4 < v → v ≤ quantile s 0.6 → toBucket s v = 2)
        ∧ (quantile s 0.6 < v → v ≤ quantile s 0.8 → toBucket s v = 3)
        ∧ (quantile s 0.8 < v → toBucket s v = 4)) := by
  by_cases hemp : s.isEmpty
  · have hs : s = [] := List.isEmpty_iff.mp hemp
    subst hs
    exact ⟨Nat.le_of_eq rfl, Nat.zero_le 4, fun u => rfl, fun h => (h rfl).elim⟩
  · have hne : s.isEmpty = false := by simpa using hemp
    have h24 : quantile s 0.2 ≤ quantile s 0.4 :=
      quantile_mono s 0.2 0.4 (by norm_num) (by norm_num) (by norm_num)
    have h46 : quantile s 0.4 ≤ quantile s 0.6 :=
      quantile_mono s 0.4 0.6 (by norm_num) (by norm_num) (by norm_num)
    have h68 : quantile s 0.6 ≤ quantile s 0.8 :=
      quantile_mono s 0.6 0.8 (by norm_num) (by norm_num) (by norm_num)
    refine ⟨?_, ?_, fun u => rfl, fun _ => ⟨?_, ?_, ?_, ?_, ?_⟩⟩ <;>
    · simp only [toBucket, hne, Bool.false_eq_true, if_false]
      intros
      split_ifs <;> first | rfl | omega | linarith

/-- Witness for C4 at the sample [1,2,3,4,5] with v = 1 and w = 5. -/
theorem toBucket_spec_witness :
    toBucket [(1 : ℚ), 2, 3, 4, 5] 1 ≤ toBucket [(1 : ℚ), 2, 3, 4, 5] 5
    ∧ toBucket [(1 : ℚ), 2, 3, 4, 5] 1 = 0 := by
  have h := toBucket_spec [(1 : ℚ), 2, 3, 4, 5] 1 5 (by norm_num)
  refine ⟨h.1, (h.2.2.2 (by simp)).1 ?_⟩
  show (1 : ℚ) ≤ quantile [(1 : ℚ), 2, 3, 4, 5] 0.2
  norm_num [quantile, List.insertionSort, List.orderedInsert]

/-- shortAddress from src/lib/formatters.ts. -/
def shortAddress (value : String) : String :=
  if value.length < 12 then value
  else value.take 4 ++ "…" ++ value.takeRight 4

/-- fallbackTimestamp from src/lib/journalTransform.ts, embedded on parsed
millisecond timestamps: a raw timestamp is `none` when the field is missing or
empty, `some none` when the string does not parse as a date, and
`some (some t)` when it parses to epoch milliseconds t.  Missing and
unparseable values fall back to the epoch (0); a parsed value is kept (the
source round-trips it through toISOString, preserving the millisecond
value). -/
def fallbackTimestamp (value : Option (Option ℤ)) : ℤ :=
  match value with
  | none => 0
  | some none => 0
  | some (some t) => t

/-- safePool from src/lib/journalTransform.ts: a missing or empty pool address
becomes the placeholder. -/
def safePool (value : Option String) : String :=
  match value with
  | none => "unknown-pool"
  | some v => if v = "" then "unknown-pool" else v

/-- Rendering of a rational with two decimals via JS Number.toFixed(2), used
only inside opaque-to-the-spec summary strings; no claim inspects the digits,
so the embedding renders the exact rational. -/
def fmt2 (q : ℚ) : String :=
  toString q

/-- JournalSwapEvent from src/lib/journalTransform.ts. -/
structure JournalSwapEvent where
  id : Option String
  pair : Option String
  user_address : Option String
  is_token0_in : Bool
  amount_in : Option ℚ
  amount_out : Option ℚ
  timestamp : Option (Option ℤ)
  tx_sig : Option String
deriving DecidableEq, Repr

/-- JournalLendingEvent from src/lib/journalTransform.ts. -/
structure JournalLendingEvent where
  id : Option String
  pair : Option String
  event_type : Option String
  description : Option String
  amount0 : Option ℚ
  amount1 : Option ℚ
  event_timestamp : Option (Option ℤ)
  transaction_signature : Option String
deriving DecidableEq, Repr

/-- JournalLiquidityEvent from src/lib/journalTransform.ts; the `pair` field
is the optional nested object holding an optional address. -/
structure JournalLiquidityEvent where
  id : Option String
  pair : Option (Option String)
  amount0 : Option ℚ
  amount1 : Option ℚ
  liquidity : Option ℚ
  timestamp : Option (Option ℤ)
  tx_sig : Option String
  event_type : Option String
deriving DecidableEq, Repr

/-- JournalEntryType from src/lib/journalTransform.ts. -/
inductive JournalEntryType
  | swap
  | liquidity
  | lending
deriving DecidableEq, Repr

/-- JournalEntry from src/lib/journalTransform.ts, with the ISO timestamp
string embedded as its parsed epoch-millisecond value. -/
structure JournalEntry where
  id : String
  type : JournalEntryType
  timestamp : ℤ
  poolAddress : String
  txSignature : String
  title : String
  subtitle : String
  amountSummary : String
deriving DecidableEq, Repr

/-- buildSwapEntry from src/lib/journalTransform.ts. -/
def buildSwapEntry (event : JournalSwapEvent) (index : ℕ) : JournalEntry :=
  let poolAddress := safePool event.pair
  let amountIn := toNumber event.amount_in
  let amountOut := toNumber event.amount_out
  let side := if event.is_token0_in then "Swap T0→T1" else "Swap T1→T0"
  { id := "swap-" ++ event.id.getD (toString index)
    type := .swap
    timestamp := fallbackTimestamp event.timestamp
    poolAddress := poolAddress
    txSignature := event.tx_sig.getD ""
    title := side
    subtitle := shortAddress poolAddress
    amountSummary := fmt2 amountIn ++ " in • " ++ fmt2 amountOut ++ " out" }

/-- buildLendingEntry from src/lib/journalTransform.ts. -/
def buildLendingEntry (event : JournalLendingEvent) (index : ℕ) : JournalEntry :=
  let poolAddress := safePool event.pair
  let trimmed := (event.description.getD "").trim
  let typeLabel := (event.event_type.getD "").replace "_" " "
  let title :=
    if trimmed ≠ "" then trimmed
    else if typeLabel ≠ "" then typeLabel
    else "Lending event"
  let amount0 := toNumber event.amount0
  let amount1 := toNumber event.amount1
  { id := "lending-" ++ event.id.getD (toString index)
    type := .lending
    timestamp := fallbackTimestamp event.event_timestamp
    poolAddress := poolAddress
    txSignature := event.transaction_signature.getD ""
    title := title
    subtitle := shortAddress poolAddress
    amountSummary := "Δ0 " ++ fmt2 amount0 ++ " • Δ1 " ++ fmt2 amount1 }

/-- buildLiquidityEntry from src/lib/journalTransform.ts. -/
def buildLiquidityEntry (event : JournalLiquidityEvent) (index : ℕ) : JournalEntry :=
  let poolAddress := safePool (event.pair.getD none)
  let amount0 := toNumber event.amount0
  let amount1 := toNumber event.amount1
  let liquidity := toNumber event.liquidity
  let kind := if event.event_type = some "remove" then "Liquidity Remove" else "Liquidity Add"
  { id := "liquidity-" ++ event.id.getD (toString index)
    type := .liquidity
    timestamp := fallbackTimestamp event.timestamp
    poolAddress := poolAddress
    txSignature := event.tx_sig.getD ""
    title := kind
    subtitle := shortAddress poolAddress
    amountSummary := fmt2 amount0 ++ " / " ++ fmt2 amount1 ++ " • LP " ++ fmt2 liquidity }

/-- Input record of mergeJournalEntries. -/
structure JournalInput where
  swaps : List JournalSwapEvent
  lending : List JournalLendingEvent
  liquidity : List JournalLiquidityEvent
deriving Repr

/-- Descending-timestamp comparator of the journal sort: the JS comparator
(a, b) => Date(b) - Date(a) orders by decreasing parsed timestamp. -/
def journalAfter (a b : JournalEntry) : Prop :=
  b.timestamp ≤ a.timestamp

instance : DecidableRel journalAfter :=
  fun a b => inferInstanceAs (Decidable (b.timestamp ≤ a.timestamp))

instance : IsTotal JournalEntry journalAfter :=
  ⟨fun a b => le_total b.timestamp a.timestamp⟩

instance : IsTrans JournalEntry journalAfter :=
  ⟨fun _ _ _ h1 h2 => le_trans h2 h1⟩

/-- mergeJournalEntries from src/lib/journalTransform.ts: map each source
list through its builder (with its own index as id fallback), concatenate in
swap/lending/liquidity order, and sort once, descending by timestamp. -/
def mergeJournalEntries (input : JournalInput) : List JournalEntry :=
  let swapEntries := input.swaps.mapIdx (fun index event => buildSwapEntry event index)
  let lendingEntries := input.lending.mapIdx (fun index event => buildLendingEntry event index)
  let liquidityEntries :=
    input.liquidity.mapIdx (fun index event => buildLiquidityEntry event index)
  List.insertionSort journalAfter (swapEntries ++ lendingEntries ++ liquidityEntries)

/-- C6: mergeJournalEntries returns a list sorted descending by timestamp;
all-empty sources yield the empty list; a source event whose timestamp is
missing or unparseable is assigned the epoch timestamp (0), and — by the
sortedness — an epoch entry never precedes an entry with a later (positive)
timestamp, so malformed events sink to the bottom instead of crashing the
merge or ranking first. -/
theorem mergeJournalEntries_spec (input : JournalInput) :
    (mergeJournalEntries input).Sorted journalAfter
    ∧ mergeJournalEntries ⟨[], [], []⟩ = []
    ∧ (∀ e i, (e.timestamp = none ∨ e.timestamp = some none) →
        (buildSwapEntry e i).timestamp = 0)
    ∧ (∀ e i, (e.event_timestamp = none ∨ e.event_timestamp = some none) →
        (buildLendingEntry e i).timestamp = 0)
    ∧ (∀ e i, (e.timestamp = none ∨ e.timestamp = some none) →
        (buildLiquidityEntry e i).timestamp = 0)
    ∧ (∀ i j (hi : i < (mergeJournalEntries input).length)
          (hj : j < (mergeJournalEntries input).length), i < j →
        ((mergeJournalEntries input).get ⟨i, hi⟩).timestamp = 0 →
        ((mergeJournalEntries input).get ⟨j, hj⟩).timestamp ≤ 0) := by
  refine ⟨List.sorted_insertionSort journalAfter _, rfl, ?_, ?_, ?_, ?_⟩
  · intro e i h
    rcases h with h | h <;> simp [buildSwapEntry, fallbackTimestamp, h]
  · intro e i h
    rcases h with h | h <;> simp [buildLendingEntry, fallbackTimestamp, h]
  · intro e i h
    rcases h with h | h <;> simp [buildLiquidityEntry, fallbackTimestamp, h]
  · intro i j hi hj hij h0
    have hsorted : (mergeJournalEntries input).Sorted journalAfter :=
      List.sorted_insertionSort journalAfter _
    have := List.pairwise_iff_get.mp hsorted ⟨i, hi⟩ ⟨j, hj⟩ hij
    unfold journalAfter at this
    omega

/-- Witness for C6: a swap event with a missing timestamp is assigned the
epoch. -/
theorem mergeJournalEntries_spec_witness :
    (buildSwapEntry ⟨none, none, none, false, none, none, none, none⟩ 0).timestamp = 0 :=
  (mergeJournalEntries_spec ⟨[], [], []⟩).2.2.1
    ⟨none, none, none, false, none, none, none, none⟩ 0 (Or.inl rfl)

/-- IndexerPoolToken from src/PoolDetail.tsx (the fields buildHeatmap
reads). -/
structure IndexerPoolToken where
  symbol : Option String
  address : Option String
deriving DecidableEq, Repr

/-- Reserves object of IndexerPoolListItem: optional raw per-token amounts. -/
structure PoolReserves where
  token0 : Option ℚ
  token1 : Option ℚ
deriving DecidableEq, Repr

/-- Shape of the volume_24h field: absent, a scalar (number or numeric
string), or a nested object with optional per-token fields, as parseVolumeLike
distinguishes them. -/
inductive VolumeLike
  | missing
  | scalar (value : Option ℚ)
  | nested (token0 token1 volume0 volume1 total : Option ℚ)
deriving DecidableEq, Repr

/-- IndexerPoolListItem from src/PoolDetail.tsx (the fields buildHeatmap
reads). -/
structure IndexerPoolListItem where
  pair_address : Option String
  token0 : Option IndexerPoolToken
  token1 : Option IndexerPoolToken
  reserves : Option PoolReserves
  volume_24h : VolumeLike
deriving DecidableEq, Repr

/-- parseVolumeLike from src/PoolDetail.tsx: null/undefined yields 0, a
scalar goes through toNumber, an object sums its token0/token1/volume0/
volume1/total fields through sumNumberish. -/
def parseVolumeLike (value : VolumeLike) : ℚ :=
  match value with
  | .missing => 0
  | .scalar v => toNumber v
  | .nested token0 token1 volume0 volume1 total =>
      sumNumberish [token0, token1, volume0, volume1, total]

/-- Truthiness of the optional pair_address string: JS Boolean(x) is false
exactly for a missing or empty string. -/
def truthyString (value : Option String) : Bool :=
  match value with
  | none => false
  | some s => !(s == "")

/-- Token display label: symbol, else first four characters of the address,
else the fallback; each step skipped when missing or empty, mirroring the
JS short-circuit chain. -/
def tokenLabel (token : Option IndexerPoolToken) (fallback : String) : String :=
  let sym := (token.bind (·.symbol)).getD ""
  if sym ≠ "" then sym
  else
    let addr4 := ((token.bind (·.address)).getD "").take 4
    if addr4 ≠ "" then addr4 else fallback

/-- Per-pool point before bucket assignment (the pointsBase stage of
buildHeatmap). -/
structure HeatmapPointBase where
  poolAddress : String
  symbol : String
  token0Symbol : String
  token1Symbol : String
  liquidityValue : ℚ
  volumeValue : ℚ
  compositeScore : ℚ
deriving DecidableEq, Repr

/-- HeatmapPoolPoint from src/PoolDetail.tsx. -/
structure HeatmapPoolPoint where
  poolAddress : String
  symbol : String
  token0Symbol : String
  token1Symbol : String
  liquidityValue : ℚ
  volumeValue : ℚ
  compositeScore : ℚ
  liquidityBucket : ℕ
  volumeBucket : ℕ
deriving DecidableEq, Repr

/-- HeatmapCell from src/PoolDetail.tsx. -/
structure HeatmapCell where
  x : ℕ
  y : ℕ
  poolCount : ℕ
  intensity : ℚ
  pools : List HeatmapPoolPoint
deriving DecidableEq, Repr

/-- HeatmapResult from src/PoolDetail.tsx. -/
structure HeatmapResult where
  points : List HeatmapPoolPoint
  cells : List HeatmapCell
deriving DecidableEq, Repr

/-- The 25 initial cells, inserted y-outer/x-inner exactly as the double loop
populates the keyed map; iteration later preserves this insertion order. -/
def initCells : List HeatmapCell :=
  (List.range 5).flatMap (fun y => (List.range 5).map (fun x => ⟨x, y, 0, 0, []⟩))

/-- One step of the population loop: look up the unique cell whose key is the
point's (liquidityBucket, volumeBucket) coordinates, increment its poolCount
and append the point; a missing key (impossible for in-range buckets) leaves
the grid unchanged, as the source's continue does. -/
def addPointToCells (cells : List HeatmapCell) (point : HeatmapPoolPoint) :
    List HeatmapCell :=
  cells.map (fun cell =>
    if cell.x = point.liquidityBucket ∧ cell.y = point.volumeBucket then
      { cell with poolCount := cell.poolCount + 1, pools := cell.pools ++ [point] }
    else cell)

/-- Descending comparator on compositeScore used for both the per-cell pool
lists and the overall points list. -/
def scoreAfter (a b : HeatmapPoolPoint) : Prop :=
  b.compositeScore ≤ a.compositeScore

instance : DecidableRel scoreAfter :=
  fun a b => inferInstanceAs (Decidable (b.compositeScore ≤ a.compositeScore))

instance : IsTotal HeatmapPoolPoint scoreAfter :=
  ⟨fun a b => le_total b.compositeScore a.compositeScore⟩

instance : IsTrans HeatmapPoolPoint scoreAfter :=
  ⟨fun _ _ _ h1 h2 => le_trans h2 h1⟩

/-- The pointsBase stage of buildHeatmap: drop pools without a truthy
pair_address, then derive the per-pool values and composite score. -/
def heatmapPointsBase (pools : List IndexerPoolListItem) : List HeatmapPointBase :=
  (pools.filter (fun pool => truthyString pool.pair_address)).map (fun pool =>
    let reserve0 := toNumber (pool.reserves.bind (·.token0))
    let reserve1 := toNumber (pool.reserves.bind (·.token1))
    let liquidityValue := reserve0 + reserve1
    let volumeValue := parseVolumeLike pool.volume_24h
    let token0Symbol := tokenLabel pool.token0 "T0"
    let token1Symbol := tokenLabel pool.token1 "T1"
    { poolAddress := pool.pair_address.getD ""
      symbol := token0Symbol ++ "/" ++ token1Symbol
      token0Symbol := token0Symbol
      token1Symbol := token1Symbol
      liquidityValue := liquidityValue
      volumeValue := volumeValue
      compositeScore := (liquidityValue + 1) * (volumeValue + 1) })

/-- The points stage of buildHeatmap: bucket every base point against the
liquidity and volume samples of all points. -/
def heatmapPoints (pools : List IndexerPoolListItem) : List HeatmapPoolPoint :=
  let pointsBase := heatmapPointsBase pools
  let liquidityValues := pointsBase.map (·.liquidityValue)
  let volumeValues := pointsBase.map (·.volumeValue)
  pointsBase.map (fun point =>
    { poolAddress := point.poolAddress
      symbol := point.symbol
      token0Symbol := point.token0Symbol
      token1Symbol := point.token1Symbol
      liquidityValue := point.liquidityValue
      volumeValue := point.volumeValue
      compositeScore := point.compositeScore
      liquidityBucket := toBucket liquidityValues point.liquidityValue
      volumeBucket := toBucket volumeValues point.volumeValue })

/-- buildHeatmap from src/PoolDetail.tsx: populate the fixed 25-cell grid
from the bucketed points, set each cell's intensity against the maximum pool
count (floored at 1), and sort each cell's pools and the overall points by
descending composite score. -/
def buildHeatmap (pools : List IndexerPoolListItem) : HeatmapResult :=
  let points := heatmapPoints pools
  let cells := points.foldl addPointToCells initCells
  let maxCount := cells.foldl (fun m cell => max m cell.poolCount) 1
  let cellsFinal := cells.map (fun cell =>
    { cell with
        intensity :=
          if cell.poolCount > 0 then (cell.poolCount : ℚ) / (maxCount : ℚ) else 0
        pools := List.insertionSort scoreAfter cell.pools })
  { points := List.insertionSort scoreAfter points
    cells := cellsFinal }

theorem toBucket_le_four (s : List ℚ) (v : ℚ) : toBucket s v ≤ 4 := by
  simp only [toBucket]
  split_ifs <;> omega

/-- Boolean form of the cell-key match between a grid cell and a point's
bucket coordinates. -/
def cellMatches (cell : HeatmapCell) (p : HeatmapPoolPoint) : Bool :=
  decide (cell.x = p.liquidityBucket ∧ cell.y = p.volumeBucket)

theorem addPoint_cell_step (p : HeatmapPoolPoint) (ps : List HeatmapPoolPoint)
    (cell : HeatmapCell) :
    (fun c : HeatmapCell =>
      { c with
          poolCount := c.poolCount + ps.countP (fun q => cellMatches c q)
          pools := c.pools ++ ps.filter (fun q => cellMatches c q) })
      (if cell.x = p.liquidityBucket ∧ cell.y = p.volumeBucket then
        { cell with poolCount := cell.poolCount + 1, pools := cell.pools ++ [p] }
      else cell)
    = { cell with
          poolCount := cell.poolCount + (p :: ps).countP (fun q => cellMatches cell q)
          pools := cell.pools ++ (p :: ps).filter (fun q => cellMatches cell q) } := by
  by_cases hc : cell.x = p.liquidityBucket ∧ cell.y = p.volumeBucket
  · rw [if_pos hc]
    have hmatch : cellMatches cell p = true := by
      simp only [cellMatches, decide_eq_true_eq]
      exact hc
    show ({ cell with
        poolCount := (cell.poolCount + 1) + ps.countP (fun q => cellMatches cell q)
        pools := (cell.pools ++ [p]) ++ ps.filter (fun q => cellMatches cell q) }
          : HeatmapCell) = _
    rw [List.countP_cons, List.filter_cons, hmatch]
    simp only [if_true, HeatmapCell.mk.injEq, true_and, and_true]
    constructor
    · omega
    · simp [List.append_assoc]
  · rw [if_neg hc]
    have hmatch : cellMatches cell p = false := by
      simp only [cellMatches, decide_eq_false_iff_not]
      exact hc
    show ({ cell with
        poolCount := cell.poolCount + ps.countP (fun q => cellMatches cell q)
        pools := cell.pools ++ ps.filter (fun q => cellMatches cell q) }
          : HeatmapCell) = _
    rw [List.countP_cons, List.filter_cons, hmatch]
    simp

theorem foldl_addPointToCells (points : List HeatmapPoolPoint)
    (cells : List HeatmapCell) :
    points.foldl addPointToCells cells = cells.map (fun cell =>
      { cell with
          poolCount := cell.poolCount + points.countP (fun p => cellMatches cell p)
          pools := cell.pools ++ points.filter (fun p => cellMatches cell p) }) := by
  induction points generalizing cells with
  | nil =>
    simp only [List.foldl_nil, List.countP_nil, List.filter_nil, Nat.add_zero,
      List.append_nil]
    exact (List.map_id cells).symm
  | cons p ps ih =>
    rw [List.foldl_cons, ih, addPointToCells, List.map_map]
    apply List.map_congr_left
    intro cell _
    exact addPoint_cell_step p ps cell

theorem sum_map_add_split (l : List HeatmapCell) (f g : HeatmapCell → ℕ) :
    (l.map (fun c => f c + g c)).sum = (l.map f).sum + (l.map g).sum := by
  induction l with
  | nil => rfl
  | cons a t ih =>
    simp only [List.map_cons, List.sum_cons, ih]
    omega

theorem initCells_indicator_sum (lb vb : ℕ) (hlb : lb ≤ 4) (hvb : vb ≤ 4) :
    (initCells.map (fun cell => if cell.x = lb ∧ cell.y = vb then 1 else 0)).sum
      = 1 := by
  interval_cases lb <;> interval_cases vb <;> decide

theorem initCells_countP_sum (points : List HeatmapPoolPoint)
    (hb : ∀ p ∈ points, p.liquidityBucket ≤ 4 ∧ p.volumeBucket ≤ 4) :
    (initCells.map (fun cell => points.countP (fun p => cellMatches cell p))).sum
      = points.length := by
  induction points with
  | nil => simp
  | cons p ps ih =>
    have hp := hb p (List.mem_cons_self p ps)
    have hps : ∀ q ∈ ps, q.liquidityBucket ≤ 4 ∧ q.volumeBucket ≤ 4 :=
      fun q hq => hb q (List.mem_cons_of_mem p hq)
    have hstep : (initCells.map (fun cell =>
        (p :: ps).countP (fun q => cellMatches cell q))).sum =
        (initCells.map (fun cell =>
          ps.countP (fun q => cellMatches cell q) +
            (if cellMatches cell p then 1 else 0))).sum := by
      simp only [List.countP_cons]
    rw [hstep, sum_map_add_split, ih hps]
    have hind : (initCells.map (fun cell =>
        if cellMatches cell p then 1 else 0)).sum = 1 := by
      have := initCells_indicator_sum p.liquidityBucket p.volumeBucket hp.1 hp.2
      simpa [cellMatches] using this
    rw [hind]
    simp

theorem initCells_mem (x y : ℕ) (hx : x ≤ 4) (hy : y ≤ 4) :
    ∃ cell ∈ initCells, cell.x = x ∧ cell.y = y := by
  refine ⟨⟨x, y, 0, 0, []⟩, ?_, rfl, rfl⟩
  interval_cases x <;> interval_cases y <;> decide

theorem foldl_max_ge_init (l : List HeatmapCell) (init : ℕ) :
    init ≤ l.foldl (fun m cell => max m cell.poolCount) init := by
  induction l generalizing init with
  | nil => exact le_refl _
  | cons c t ih => exact le_trans (le_max_left _ _) (ih _)

theorem foldl_max_ge_mem (l : List HeatmapCell) (init : ℕ) (c : HeatmapCell)
    (hc : c ∈ l) : c.poolCount ≤ l.foldl (fun m cell => max m cell.poolCount) init := by
  induction l generalizing init with
  | nil => cases hc
  | cons d t ih =>
    rcases List.mem_cons.mp hc with rfl | h
    · exact le_trans (le_max_right _ _) (foldl_max_ge_init t _)
    · exact ih _ h

theorem heatmapPoints_buckets (pools : List IndexerPoolListItem) :
    ∀ p ∈ heatmapPoints pools, p.liquidityBucket ≤ 4 ∧ p.volumeBucket ≤ 4 := by
  intro p hp
  simp only [heatmapPoints, List.mem_map] at hp
  obtain ⟨b, hb, rfl⟩ := hp
  exact ⟨toBucket_le_four _ _, toBucket_le_four _ _⟩

theorem heatmapPoints_length (pools : List IndexerPoolListItem) :
    (heatmapPoints pools).length =
      (pools.filter (fun pool => truthyString pool.pair_address)).length := by
  simp [heatmapPoints, heatmapPointsBase]

/-- C5: buildHeatmap returns exactly 25 cells, one for every coordinate pair
(x, y) with x, y ≤ 4; the pool counts over all cells sum to the number of
input pools with a non-empty pair_address; and every cell's intensity lies in
[0, 1] and equals poolCount divided by the maximum pool count across cells
floored at 1 (the foldl starting at 1 below). -/
theorem buildHeatmap_spec (pools : List IndexerPoolListItem) :
    (buildHeatmap pools).cells.length = 25
    ∧ (∀ x y : ℕ, x ≤ 4 → y ≤ 4 →
        ∃ cell ∈ (buildHeatmap pools).cells, cell.x = x ∧ cell.y = y)
    ∧ ((buildHeatmap pools).cells.map (·.poolCount)).sum =
        (pools.filter (fun pool => truthyString pool.pair_address)).length
    ∧ (∀ cell ∈ (buildHeatmap pools).cells,
        0 ≤ cell.intensity ∧ cell.intensity ≤ 1 ∧
        cell.intensity = (cell.poolCount : ℚ) /
          (((buildHeatmap pools).cells.foldl (fun m c => max m c.poolCount) 1 : ℕ) : ℚ)) := by
  have hfold := foldl_addPointToCells (heatmapPoints pools) initCells
  have hb := heatmapPoints_buckets pools
  have hcells : (buildHeatmap pools).cells =
      ((heatmapPoints pools).foldl addPointToCells initCells).map (fun cell =>
        { cell with
            intensity := if cell.poolCount > 0 then (cell.poolCount : ℚ) /
              ((((heatmapPoints pools).foldl addPointToCells initCells).foldl
                  (fun m cell => max m cell.poolCount) 1 : ℕ) : ℚ) else 0
            pools := List.insertionSort scoreAfter cell.pools }) := rfl
  have hpoolCount : ∀ cell : HeatmapCell,
      ({ cell with
          intensity := if cell.poolCount > 0 then (cell.poolCount : ℚ) /
            ((((heatmapPoints pools).foldl addPointToCells initCells).foldl
                (fun m cell => max m cell.poolCount) 1 : ℕ) : ℚ) else 0
          pools := List.insertionSort scoreAfter cell.pools } : HeatmapCell).poolCount
        = cell.poolCount := fun cell => rfl
  have hmaxeq : (buildHeatmap pools).cells.foldl (fun m c => max m c.poolCount) 1 =
      ((heatmapPoints pools).foldl addPointToCells initCells).foldl
        (fun m cell => max m cell.poolCount) 1 := by
    rw [hcells, List.foldl_map]
  refine ⟨?_, ?_, ?_, ?_⟩
  · rw [hcells, List.length_map, hfold, List.length_map]
    rfl
  · intro x y hx hy
    obtain ⟨c, hc, hcx, hcy⟩ := initCells_mem x y hx hy
    rw [hcells, hfold, List.map_map]
    exact ⟨_, List.mem_map.mpr ⟨c, hc, rfl⟩, hcx, hcy⟩
  · rw [hcells, hfold, List.map_map, List.map_map]
    show (initCells.map (fun cell : HeatmapCell => cell.poolCount +
        (heatmapPoints pools).countP (fun p => cellMatches cell p))).sum = _
    rw [sum_map_add_split, initCells_countP_sum (heatmapPoints pools) hb,
      heatmapPoints_length pools]
    have h0 : (initCells.map (fun c : HeatmapCell => c.poolCount)).sum = 0 := rfl
    rw [show (initCells.map HeatmapCell.poolCount).sum = 0 from h0, Nat.zero_add]
  · intro cell hcell
    rw [hcells] at hcell
    obtain ⟨pre, hpre, rfl⟩ := List.mem_map.mp hcell
    have hmax1 : 1 ≤ ((heatmapPoints pools).foldl addPointToCells initCells).foldl
        (fun m cell => max m cell.poolCount) 1 := foldl_max_ge_init _ _
    have hmaxmem : pre.poolCount ≤
        ((heatmapPoints pools).foldl addPointToCells initCells).foldl
          (fun m cell => max m cell.poolCount) 1 := foldl_max_ge_mem _ _ _ hpre
    have hqpos : (0 : ℚ) <
        (((((heatmapPoints pools).foldl addPointToCells initCells).foldl
          (fun m cell => max m cell.poolCount) 1 : ℕ)) : ℚ) := by
      exact_mod_cast lt_of_lt_of_le Nat.zero_lt_one hmax1
    have hqle : ((pre.poolCount : ℕ) : ℚ) ≤
        (((((heatmapPoints pools).foldl addPointToCells initCells).foldl
          (fun m cell => max m cell.poolCount) 1 : ℕ)) : ℚ) := by
      exact_mod_cast hmaxmem
    rw [hmaxeq]
    by_cases hz : pre.poolCount > 0
    · simp only [hpoolCount, if_pos hz]
      refine ⟨?_, ?_, ?_⟩
      · positivity
      · rw [div_le_one hqpos]
        exact hqle
      · trivial
    · have hz0 : pre.poolCount = 0 := by omega
      simp only [hpoolCount, if_neg hz, hz0, Nat.cast_zero, zero_div]
      norm_num

/-- Distinguishable failure modes of getIndexerData's response handling:
non-2xx with HTTP status, server-reported error, missing data field. -/
inductive FetchError
  | requestFailed (status : ℕ) (message : String)
  | serverError (message : String)
  | missingData (message : String)
deriving DecidableEq, Repr

/-- IndexerEnvelope from src/PoolDetail.tsx: all three fields optional. -/
structure IndexerEnvelope (T : Type) where
  success : Option Bool
  data : Option T
  error : Option String
deriving DecidableEq, Repr

/-- Envelope handling of getIndexerData (src/PoolDetail.tsx): an explicit
success === false throws the server-provided error message when truthy
(non-empty), the fallback message otherwise; afterwards an absent data field
throws the missing-data error; otherwise the data is returned.  The error
field alone is never inspected when success is not explicitly false. -/
def handleEnvelope {T : Type} (url : String) (json : IndexerEnvelope T) :
    Except FetchError T :=
  if json.success = some false then
    .error (.serverError
      (match json.error with
       | some msg => if msg = "" then "Indexer request failed: " ++ url else msg
       | none => "Indexer request failed: " ++ url))
  else
    match json.data with
    | none => .error (.missingData ("Indexer response missing data: " ++ url))
    | some d => .ok d

/-- Parsed network response: ok/status of the HTTP layer, the body text used
in the non-2xx message, and the parsed JSON envelope. -/
structure NetResponse (T : Type) where
  ok : Bool
  status : ℕ
  text : String
  json : IndexerEnvelope T
deriving DecidableEq, Repr

/-- Response handling of getIndexerData: a non-2xx response throws a
requestFailed error carrying the HTTP status and the body text (the url when
the text is empty); otherwise the envelope is handled. -/
def handleResponse {T : Type} (url : String) (response : NetResponse T) :
    Except FetchError T :=
  if !response.ok then
    .error (.requestFailed response.status
      (if response.text = "" then url else response.text))
  else
    handleEnvelope url response.json

/-- C7 counterexample: an envelope with success true, a NON-EMPTY error field
and data present is returned as data, not failed — the source inspects the
error field only when success is explicitly false, so the claim that any
non-empty error field fails the fetch is refuted. -/
theorem handleEnvelope_error_field_not_failure :
    handleEnvelope "u" ({ success := some true, data := some (7 : ℕ), error := some "boom" }) =
      .ok 7 := rfl

/-- C7 amended: the fetch fails with a server error exactly when the envelope
has success explicitly false — carrying the server-provided message when it
is non-empty, and the fallback message when the error field is empty or
missing; otherwise a missing data field fails with the malformed-response
error; otherwise the data field is returned; and a non-2xx HTTP response
fails with an error carrying the HTTP status. -/
theorem handleResponse_spec {T : Type} (url : String) (response : NetResponse T) :
    (response.ok = false → handleResponse url response =
      .error (.requestFailed response.status
        (if response.text = "" then url else response.text)))
    ∧ (∀ msg, response.ok = true → response.json.success = some false →
        response.json.error = some msg → msg ≠ "" →
        handleResponse url response = .error (.serverError msg))
    ∧ (response.ok = true → response.json.success = some false →
        (response.json.error = none ∨ response.json.error = some "") →
        handleResponse url response =
          .error (.serverError ("Indexer request failed: " ++ url)))
    ∧ (response.ok = true → response.json.success ≠ some false →
        response.json.data = none →
        handleResponse url response =
          .error (.missingData ("Indexer response missing data: " ++ url)))
    ∧ (∀ d, response.ok = true → response.json.success ≠ some false →
        response.json.data = some d →
        handleResponse url response = .ok d) := by
  refine ⟨?_, ?_, ?_, ?_, ?_⟩
  · intro hok
    simp [handleResponse, hok]
  · intro msg hok hsucc herr hne
    simp [handleResponse, handleEnvelope, hok, hsucc, herr, hne]
  · intro hok hsucc herr
    rcases herr with herr | herr <;>
      simp [handleResponse, handleEnvelope, hok, hsucc, herr]
  · intro hok hsucc hdata
    simp [handleResponse, handleEnvelope, hok, hsucc, hdata]
  · intro d hok hsucc hdata
    simp [handleResponse, handleEnvelope, hok, hsucc, hdata]

/-- Witness for C7's amended theorem on concrete responses exercising all
five branches, including success:false with a missing error field. -/
theorem handleResponse_spec_witness :
    (handleResponse "u" (⟨false, 500, "bad", ⟨none, none, none⟩⟩ : NetResponse ℕ) =
      .error (.requestFailed 500 "bad"))
    ∧ (handleResponse "u" (⟨true, 200, "", ⟨some false, some 3, some "boom"⟩⟩ : NetResponse ℕ) =
      .error (.serverError "boom"))
    ∧ (handleResponse "u" (⟨true, 200, "", ⟨some false, some 3, none⟩⟩ : NetResponse ℕ) =
      .error (.serverError "Indexer request failed: u"))
    ∧ (handleResponse "u" (⟨true, 200, "", ⟨some true, none, none⟩⟩ : NetResponse ℕ) =
      .error (.missingData "Indexer response missing data: u"))
    ∧ (handleResponse "u" (⟨true, 200, "", ⟨some true, some 9, none⟩⟩ : NetResponse ℕ) =
      .ok 9) := by
  refine ⟨?_, ?_, ?_, ?_, ?_⟩
  · exact (handleResponse_spec "u" _).1 rfl
  · exact (handleResponse_spec "u" _).2.1 "boom" rfl rfl rfl (by decide)
  · exact (handleResponse_spec "u" _).2.2.1 rfl rfl (Or.inl rfl)
  · exact (handleResponse_spec "u" _).2.2.2.1 rfl (by decide) rfl
  · exact (handleResponse_spec "u" _).2.2.2.2 9 rfl (by decide) rfl

/-- Query-parameter comparator of toQueryKey: the source sorts entries by
localeCompare on the names, which for the ASCII parameter names this code
uses coincides with lexicographic string order. -/
def paramLE (a b : String × String) : Prop :=
  a.1 ≤ b.1

instance : DecidableRel paramLE :=
  fun a b => inferInstanceAs (Decidable (a.1 ≤ b.1))

instance : IsTotal (String × String) paramLE :=
  ⟨fun a b => le_total a.1 b.1⟩

instance : IsTrans (String × String) paramLE :=
  ⟨fun _ _ _ h1 h2 => le_trans h1 h2⟩

/-- toQueryKey from src/PoolDetail.tsx: keep the entries with defined values,
sort them lexicographically by name, join as name=value pairs with ampersands.
Parameters are an insertion-ordered record embedded as an association list
whose values are already stringified; an undefined value is none. -/
def toQueryKey (params : Option (List (String × Option String))) : String :=
  match params with
  | none => ""
  | some ps =>
    let entries := ps.filterMap (fun e => e.2.map (fun v => (e.1, v)))
    let sorted := List.insertionSort paramLE entries
    String.intercalate "&" (sorted.map (fun e => e.1 ++ "=" ++ e.2))

/-- Base URL constant from src/PoolDetail.tsx. -/
def INDEXER_BASE_URL : String :=
  "https://api.indexer.omnipair.fi/api/v1"

/-- buildUrl from src/PoolDetail.tsx. -/
def buildUrl (path : String) (params : Option (List (String × Option String))) :
    String :=
  let safePath := if path.startsWith "/" then path else "/" ++ path
  let query := toQueryKey params
  let suffix := if query ≠ "" then safePath ++ "?" ++ query else safePath
  INDEXER_BASE_URL ++ suffix

theorem sorted_perm_nodupkeys_eq (l : List (String × String)) :
    ∀ l' : List (String × String), List.Perm l l' →
      l.Sorted paramLE → l'.Sorted paramLE → (l.map Prod.fst).Nodup → l = l' := by
  induction l with
  | nil =>
    intro l' hp _ _ _
    have := hp.length_eq
    cases l' with
    | nil => rfl
    | cons b t' => simp at this
  | cons a t ih =>
    intro l' hp hsl hsl' hnd
    cases l' with
    | nil => exact absurd hp.length_eq (by simp)
    | cons b t' =>
      have hab : a = b := by
        by_contra hne
        have ha : a ∈ b :: t' := hp.mem_iff.mp (List.mem_cons_self a t)
        have hb : b ∈ a :: t := hp.symm.mem_iff.mp (List.mem_cons_self b t')
        have ha' : a ∈ t' := by
          rcases List.mem_cons.mp ha with h | h
          · exact absurd h hne
          · exact h
        have hb' : b ∈ t := by
          rcases List.mem_cons.mp hb with h | h
          · exact absurd h.symm hne
          · exact h
        have h1 : a.1 ≤ b.1 := (List.sorted_cons.mp hsl).1 b hb'
        have h2 : b.1 ≤ a.1 := (List.sorted_cons.mp hsl').1 a ha'
        have heq : a.1 = b.1 := le_antisymm h1 h2
        have hmem : a.1 ∈ t.map Prod.fst := heq ▸ List.mem_map_of_mem Prod.fst hb'
        exact (List.nodup_cons.mp hnd).1 hmem
      subst hab
      have ht : List.Perm t t' := hp.cons_inv
      rw [ih t' ht (List.sorted_cons.mp hsl).2 (List.sorted_cons.mp hsl').2
        (List.nodup_cons.mp hnd).2]

theorem entries_keys_sublist (ps : List (String × Option String)) :
    List.Sublist
      ((ps.filterMap (fun e => e.2.map (fun v => (e.1, v)))).map Prod.fst)
      (ps.map Prod.fst) := by
  induction ps with
  | nil => simp
  | cons e t ih =>
    cases he : e.2 with
    | none =>
      simp only [List.filterMap_cons, he, Option.map_none, List.map_cons]
      exact ih.cons e.1
    | some v =>
      simp only [List.filterMap_cons, he, Option.map_some, List.map_cons]
      exact ih.cons₂ e.1

/-- Canonical-key invariance: with pairwise-distinct parameter names, two
parameter records that are permutations of each other produce the same query
key (and hence the same URL and cache key). -/
theorem toQueryKey_perm (ps qs : List (String × Option String))
    (hperm : List.Perm ps qs) (hnd : (ps.map Prod.fst).Nodup) :
    toQueryKey (some ps) = toQueryKey (some qs) := by
  have hentries : List.Perm
      (ps.filterMap (fun e => e.2.map (fun v => (e.1, v))))
      (qs.filterMap (fun e => e.2.map (fun v => (e.1, v)))) :=
    hperm.filterMap _
  have hsortedp := List.sorted_insertionSort paramLE
    (ps.filterMap (fun e => e.2.map (fun v => (e.1, v))))
  have hsortedq := List.sorted_insertionSort paramLE
    (qs.filterMap (fun e => e.2.map (fun v => (e.1, v))))
  have hpermsorted : List.Perm
      (List.insertionSort paramLE (ps.filterMap (fun e => e.2.map (fun v => (e.1, v)))))
      (List.insertionSort paramLE (qs.filterMap (fun e => e.2.map (fun v => (e.1, v))))) :=
    ((List.perm_insertionSort _ _).trans hentries).trans
      (List.perm_insertionSort _ _).symm
  have hndentries : ((ps.filterMap (fun e => e.2.map (fun v => (e.1, v)))).map
      Prod.fst).Nodup := (entries_keys_sublist ps).nodup hnd
  have hndsorted : ((List.insertionSort paramLE
      (ps.filterMap (fun e => e.2.map (fun v => (e.1, v))))).map Prod.fst).Nodup := by
    refine ((List.perm_insertionSort paramLE _).map Prod.fst).nodup_iff.mpr hndentries
  have heq := sorted_perm_nodupkeys_eq _ _ hpermsorted hsortedp hsortedq hndsorted
  simp only [toQueryKey]
  rw [heq]

/-- FetchOptions from src/PoolDetail.tsx; the AbortSignal is embedded by
whether one was supplied, which is all getIndexerData inspects
synchronously. -/
structure FetchOptions where
  hasSignal : Bool
  force : Bool
  ttlMs : Option ℤ
deriving DecidableEq, Repr

/-- DEFAULT_CACHE_TTL_MS from src/PoolDetail.tsx. -/
def DEFAULT_CACHE_TTL_MS : ℤ := 60000

/-- Entry of the responseCache map: Date.now() write time plus payload. -/
structure CacheEntry (T : Type) where
  timestamp : ℤ
  data : T
deriving DecidableEq, Repr

/-- Process-wide state of the request cache and coalescer: the two module
maps of src/PoolDetail.tsx.  The JS Maps are observed only through get, set
and delete here, so each is embedded as its lookup function; inflightRequests
maps a key to the identifier of the outstanding network request; the issued
identifiers are logged so theorems can count network calls. -/
structure CacheState (T : Type) where
  responseCache : String → Option (CacheEntry T)
  inflightRequests : String → Option ℕ
  nextRequestId : ℕ
  issuedRequests : List ℕ

/-- Pointwise update of an embedded map (Map.set for a some value, Map.delete
for none). -/
def mapUpdate {V : Type} (m : String → Option V) (key : String)
    (value : Option V) : String → Option V :=
  fun k => if k = key then value else m k

/-- What the synchronous prefix of a getIndexerData call does. -/
inductive StartOutcome (T : Type)
  | fromCache (data : T)
  | awaitExisting (requestId : ℕ)
  | fetchStarted (requestId : ℕ)
deriving DecidableEq, Repr

/-- Synchronous prefix of getIndexerData (src/PoolDetail.tsx), up to its
first suspension point, executed atomically under the JS run-to-completion
model: resolve the TTL and canonical key; unless force is set, serve a cache
entry younger than the TTL; otherwise, when no cancellation signal was
supplied and an in-flight request exists for the key, await that shared
request; otherwise issue the network request (the async body runs to its
first await, calling fetch) and, when signal-free, register it in the
in-flight map. -/
def startGetIndexerData {T : Type} (path : String)
    (params : Option (List (String × Option String))) (options : FetchOptions)
    (now : ℤ) (st : CacheState T) : StartOutcome T × CacheState T :=
  let ttlMs := options.ttlMs.getD DEFAULT_CACHE_TTL_MS
  let cacheKey := buildUrl path params
  let cacheHit :=
    if !options.force then
      match st.responseCache cacheKey with
      | some cached => if now - cached.timestamp < ttlMs then some cached.data else none
      | none => none
    else none
  match cacheHit with
  | some data => (.fromCache data, st)
  | none =>
    let canShareInflight := !options.hasSignal
    match (if canShareInflight then st.inflightRequests cacheKey else none) with
    | some existing => (.awaitExisting existing, st)
    | none =>
      let requestId := st.nextRequestId
      (.fetchStarted requestId,
        { st with
            nextRequestId := st.nextRequestId + 1
            issuedRequests := st.issuedRequests ++ [requestId]
            inflightRequests :=
              if canShareInflight then
                mapUpdate st.inflightRequests cacheKey (some requestId)
              else st.inflightRequests })

/-- Completion of a getIndexerData call whose network request settled with
the given handleResponse result: a success writes the payload into the
response cache under the key with the settlement time — regardless of whether
a signal was supplied, since the cache write sits inside the request body —
and the finally path removes the in-flight entry exactly when the request was
shared (signal-free). -/
def settleGetIndexerData {T : Type} (cacheKey : String) (options : FetchOptions)
    (result : Except FetchError T) (settledAt : ℤ) (st : CacheState T) :
    Except FetchError T × CacheState T :=
  let canShareInflight := !options.hasSignal
  let stCache :=
    match result with
    | .ok data =>
        { st with responseCache :=
            mapUpdate st.responseCache cacheKey (some ⟨settledAt, data⟩) }
    | .error _ => st
  let stFinal :=
    if canShareInflight then
      { stCache with
          inflightRequests := mapUpdate stCache.inflightRequests cacheKey none }
    else stCache
  (result, stFinal)

theorem start_cache_hit {T : Type} (path : String)
    (params : Option (List (String × Option String))) (options : FetchOptions)
    (now : ℤ) (st : CacheState T) (entry : CacheEntry T)
    (hforce : options.force = false)
    (hcache : st.responseCache (buildUrl path params) = some entry)
    (httl : now - entry.timestamp < options.ttlMs.getD DEFAULT_CACHE_TTL_MS) :
    startGetIndexerData path params options now st = (.fromCache entry.data, st) := by
  simp only [startGetIndexerData, hforce, Bool.not_false, if_true, hcache, httl,
    if_pos]

/-- C1 counterexample: with force:true, no cancellation signal and an
in-flight request already registered for the canonical key, getIndexerData
awaits the existing request and issues no network request of its own — the
in-flight check is not gated on force, refuting the claim that force:true
always issues a network request. -/
theorem force_join_counterexample :
    (startGetIndexerData (T := ℕ) "/pools" none ⟨false, true, none⟩ 0
      ⟨fun _ => none, fun _ => some 0, 1, [0]⟩).1 = .awaitExisting 0
    ∧ ((startGetIndexerData (T := ℕ) "/pools" none ⟨false, true, none⟩ 0
      ⟨fun _ => none, fun _ => some 0, 1, [0]⟩).2).issuedRequests = [0] := by
  constructor <;> rfl

/-- C1 corrected: (i) when force is not set and the response cache holds an
entry for the canonical key whose age is strictly less than the effective TTL
(default 60000 ms), getIndexerData returns that cached payload with no state
change and no network request; (ii) with force:true the call never serves
from cache, but a signal-free call that finds an in-flight request for the
key joins it instead of issuing a network request, and issues a network
request exactly otherwise; (iii) the canonical key sorts defined query
parameters lexicographically by name, so two calls with the same path whose
parameter records (pairwise-distinct names, as JS records have) are
permutations of each other produce the same URL, hence the same cache
key. -/
theorem getIndexerData_cache_spec {T : Type} (path : String)
    (params : Option (List (String × Option String))) (options : FetchOptions)
    (now : ℤ) (st : CacheState T) :
    (∀ entry : CacheEntry T, options.force = false →
      st.responseCache (buildUrl path params) = some entry →
      now - entry.timestamp < options.ttlMs.getD DEFAULT_CACHE_TTL_MS →
      startGetIndexerData path params options now st = (.fromCache entry.data, st))
    ∧ (options.force = true →
        (∀ d, (startGetIndexerData path params options now st).1 ≠ .fromCache d)
        ∧ (∀ r, options.hasSignal = false →
            st.inflightRequests (buildUrl path params) = some r →
            startGetIndexerData path params options now st = (.awaitExisting r, st))
        ∧ ((options.hasSignal = true ∨
              st.inflightRequests (buildUrl path params) = none) →
            (startGetIndexerData path params options now st).1 =
              .fetchStarted st.nextRequestId
            ∧ ((startGetIndexerData path params options now st).2).issuedRequests =
              st.issuedRequests ++ [st.nextRequestId]))
    ∧ (∀ ps qs, params = some ps → List.Perm ps qs → (ps.map Prod.fst).Nodup →
        buildUrl path (some ps) = buildUrl path (some qs)) := by
  refine ⟨?_, ?_, ?_⟩
  · intro entry hforce hcache httl
    exact start_cache_hit path params options now st entry hforce hcache httl
  · intro hforce
    refine ⟨?_, ?_, ?_⟩
    · intro d
      simp only [startGetIndexerData, hforce, Bool.not_true, Bool.false_eq_true,
        if_false]
      split <;> simp
    · intro r hsig hin
      simp only [startGetIndexerData, hforce, Bool.not_true, Bool.false_eq_true,
        if_false, hsig, Bool.not_false, if_true, hin]
    · intro hcase
      rcases hcase with hsig | hin
      · simp only [startGetIndexerData, hforce, Bool.not_true, Bool.false_eq_true,
          if_false, hsig]
        refine ⟨?_, ?_⟩ <;> first | rfl | trivial
      · simp only [startGetIndexerData, hforce, Bool.not_true, Bool.false_eq_true,
          if_false, hin, ite_self]
        refine ⟨?_, ?_⟩ <;> first | rfl | trivial
  · intro ps qs _ hperm hnd
    simp only [buildUrl, toQueryKey_perm ps qs hperm hnd]

/-- Witness for C1's corrected theorem: a fresh cache entry is served without
a network request on a concrete state. -/
theorem getIndexerData_cache_spec_witness :
    startGetIndexerData (T := ℕ) "/pools" none ⟨false, false, none⟩ 1
      ⟨fun _ => some ⟨0, 42⟩, fun _ => none, 0, []⟩ =
      (.fromCache 42, ⟨fun _ => some ⟨0, 42⟩, fun _ => none, 0, []⟩) :=
  (getIndexerData_cache_spec "/pools" none ⟨false, false, none⟩ 1
    ⟨fun _ => some ⟨0, 42⟩, fun _ => none, 0, []⟩).1 ⟨0, 42⟩ rfl rfl (by decide)

/-- C9: two concurrent getIndexerData calls without a cancellation signal for
the same uncached key: the first issues the single network request
(identifier st.nextRequestId) and registers it in-flight; the second,
starting before settlement, joins exactly that request — so both callers
resolve to the payload of the one shared request — and the issued-request log
grows by exactly one entry across both calls.  Separately, a call supplying
a cancellation signal never joins an existing in-flight request and leaves
the in-flight map untouched. -/
theorem coalescing_spec {T : Type} (path : String)
    (params : Option (List (String × Option String)))
    (o1 o2 : FetchOptions) (now1 now2 : ℤ) (st : CacheState T)
    (h1 : o1.hasSignal = false) (h2 : o2.hasSignal = false)
    (hcache : st.responseCache (buildUrl path params) = none)
    (hinflight : st.inflightRequests (buildUrl path params) = none) :
    (startGetIndexerData path params o1 now1 st).1 = .fetchStarted st.nextRequestId
    ∧ ((startGetIndexerData path params o1 now1 st).2).issuedRequests =
        st.issuedRequests ++ [st.nextRequestId]
    ∧ (startGetIndexerData path params o2 now2
        ((startGetIndexerData path params o1 now1 st).2)).1 =
        .awaitExisting st.nextRequestId
    ∧ ((startGetIndexerData path params o2 now2
        ((startGetIndexerData path params o1 now1 st).2)).2).issuedRequests =
        st.issuedRequests ++ [st.nextRequestId]
    ∧ (∀ (o : FetchOptions) (st2 : CacheState T) (now : ℤ), o.hasSignal = true →
        (∀ r, (startGetIndexerData path params o now st2).1 ≠ .awaitExisting r)
        ∧ ((startGetIndexerData path params o now st2).2).inflightRequests =
            st2.inflightRequests) := by
  have hstep1 : startGetIndexerData path params o1 now1 st =
      (.fetchStarted st.nextRequestId,
        { st with
            nextRequestId := st.nextRequestId + 1
            issuedRequests := st.issuedRequests ++ [st.nextRequestId]
            inflightRequests :=
              mapUpdate st.inflightRequests (buildUrl path params)
                (some st.nextRequestId) }) := by
    simp only [startGetIndexerData, hcache, ite_self, h1, Bool.not_false, if_true,
      hinflight]
  have hstep2 : startGetIndexerData path params o2 now2
      ((startGetIndexerData path params o1 now1 st).2) =
      (.awaitExisting st.nextRequestId,
        (startGetIndexerData path params o1 now1 st).2) := by
    rw [hstep1]
    simp only [startGetIndexerData, hcache, ite_self, h2, Bool.not_false, if_true,
      mapUpdate, if_pos]
  refine ⟨by rw [hstep1], by rw [hstep1], by rw [hstep2, hstep1], by rw [hstep2, hstep1], ?_⟩
  intro o st2 now hsig
  constructor
  · intro r
    simp only [startGetIndexerData, hsig, Bool.not_true, Bool.false_eq_true, if_false]
    split <;> simp
  · simp only [startGetIndexerData, hsig, Bool.not_true, Bool.false_eq_true, if_false]
    split <;> rfl

/-- Witness for C9 on a concrete empty state: the first call starts request
0, the second joins request 0, and only one request id is ever issued. -/
theorem coalescing_spec_witness :
    (startGetIndexerData (T := ℕ) "/pools" none ⟨false, false, none⟩ 0
      ⟨fun _ => none, fun _ => none, 0, []⟩).1 = .fetchStarted 0
    ∧ ((startGetIndexerData (T := ℕ) "/pools" none ⟨false, false, none⟩ 0
      ⟨fun _ => none, fun _ => none, 0, []⟩).2).issuedRequests = [] ++ [0]
    ∧ (startGetIndexerData (T := ℕ) "/pools" none ⟨false, false, none⟩ 1
        ((startGetIndexerData (T := ℕ) "/pools" none ⟨false, false, none⟩ 0
          ⟨fun _ => none, fun _ => none, 0, []⟩).2)).1 = .awaitExisting 0
    ∧ ((startGetIndexerData (T := ℕ) "/pools" none ⟨false, false, none⟩ 1
        ((startGetIndexerData (T := ℕ) "/pools" none ⟨false, false, none⟩ 0
          ⟨fun _ => none, fun _ => none, 0, []⟩).2)).2).issuedRequests = [] ++ [0]
    ∧ (∀ (o : FetchOptions) (st2 : CacheState ℕ) (now : ℤ), o.hasSignal = true →
        (∀ r, (startGetIndexerData "/pools" none o now st2).1 ≠ .awaitExisting r)
        ∧ ((startGetIndexerData "/pools" none o now st2).2).inflightRequests =
            st2.inflightRequests) :=
  coalescing_spec "/pools" none ⟨false, false, none⟩ ⟨false, false, none⟩ 0 1
    ⟨fun _ => none, fun _ => none, 0, []⟩ rfl rfl rfl rfl

/-- C10: a getIndexerData call that carried a cancellation signal and settled
successfully still writes its payload into the response cache under the
canonical key — only the in-flight sharing bookkeeping is skipped for
signal-carrying requests — so a subsequent force-free call for the same key
within the TTL returns that payload from cache with no state change and no
network request. -/
theorem signal_success_caches {T : Type} (path : String)
    (params : Option (List (String × Option String))) (o : FetchOptions)
    (data : T) (settledAt : ℤ) (st : CacheState T) (hsig : o.hasSignal = true) :
    ((settleGetIndexerData (buildUrl path params) o (.ok data) settledAt st).2).responseCache
        (buildUrl path params) = some ⟨settledAt, data⟩
    ∧ (∀ (o2 : FetchOptions) (now2 : ℤ), o2.force = false →
        now2 - settledAt < o2.ttlMs.getD DEFAULT_CACHE_TTL_MS →
        startGetIndexerData path params o2 now2
          ((settleGetIndexerData (buildUrl path params) o (.ok data) settledAt st).2) =
          (.fromCache data,
            (settleGetIndexerData (buildUrl path params) o (.ok data) settledAt st).2)) := by
  have hsettle : (settleGetIndexerData (buildUrl path params) o (.ok data) settledAt st).2 =
      { st with responseCache :=
          mapUpdate st.responseCache (buildUrl path params) (some ⟨settledAt, data⟩) } := by
    simp only [settleGetIndexerData, hsig, Bool.not_true, Bool.false_eq_true, if_false]
  have hlookup : ((settleGetIndexerData (buildUrl path params) o (.ok data) settledAt
      st).2).responseCache (buildUrl path params) = some ⟨settledAt, data⟩ := by
    rw [hsettle]
    simp [mapUpdate]
  refine ⟨hlookup, ?_⟩
  intro o2 now2 hforce httl
  exact start_cache_hit path params o2 now2 _ ⟨settledAt, data⟩ hforce hlookup httl

/-- Witness for C10 on a concrete signal-carrying call over the empty
state. -/
theorem signal_success_caches_witness :
    ((settleGetIndexerData (T := ℕ) (buildUrl "/pools" none) ⟨true, false, none⟩
        (.ok 42) 5 ⟨fun _ => none, fun _ => none, 0, []⟩).2).responseCache
      (buildUrl "/pools" none) = some ⟨5, 42⟩ :=
  (signal_success_caches "/pools" none ⟨true, false, none⟩ 42 5
    ⟨fun _ => none, fun _ => none, 0, []⟩ rfl).1

/-- SwapSizeTier from src/PoolDetail.tsx. -/
inductive SwapSizeTier
  | S
  | M
  | L
  | XL
deriving DecidableEq, Repr

/-- SwapSpeedTier from src/PoolDetail.tsx. -/
inductive SwapSpeedTier
  | Fast
  | Normal
  | Slow
deriving DecidableEq, Repr

/-- speedTier from src/PoolDetail.tsx.  The JS argument is number | null:
null (no previous item) is the outer none; NaN — the delta against an
unparseable timestamp — is some none, for which both threshold comparisons
are false in JS, giving Normal; a finite delta below 45 seconds is Fast,
above 300 seconds Slow, Normal otherwise. -/
def speedTier (deltaSeconds : Option (Option ℚ)) : SwapSpeedTier :=
  match deltaSeconds with
  | none => .Normal
  | some none => .Normal
  | some (some d) => if d < 45 then .Fast else if d > 300 then .Slow else .Normal

/-- sizeTier from src/PoolDetail.tsx: S/M/L/XL against the 25/50/75th
percentiles of the sample. -/
def sizeTier (value : ℚ) (values : List ℚ) : SwapSizeTier :=
  let q25 := quantile values 0.25
  let q50 := quantile values 0.5
  let q75 := quantile values 0.75
  if value ≤ q25 then .S
  else if value ≤ q50 then .M
  else if value ≤ q75 then .L
  else .XL

/-- IndexerSwap from src/PoolDetail.tsx (fields fetchSwapTape reads).  The
raw timestamp string is none when the field is missing or empty (the source
substitutes the epoch ISO string there), some none when it is a non-empty
string that new Date cannot parse (its getTime() is NaN), and
some (some t) when it parses to epoch milliseconds t. -/
structure IndexerSwap where
  id : Option String
  timestamp : Option (Option ℤ)
  tx_sig : Option String
  user_address : Option String
  amount_in : Option ℚ
  amount_out : Option ℚ
  is_token0_in : Bool
  slot : Option String
deriving DecidableEq, Repr

/-- Normalized swap of fetchSwapTape before tier assignment (the first map's
result shape).  After the missing-timestamp fallback, timestamp is
some t for a string parsing to t ms and none for a kept non-empty
unparseable string, whose getTime() is NaN. -/
structure SwapTapeBase where
  id : String
  timestamp : Option ℤ
  txSignature : String
  userAddress : String
  amountIn : ℚ
  amountOut : ℚ
  impliedPrice : Option ℚ
  isToken0In : Bool
  slot : String
deriving DecidableEq, Repr

/-- SwapTapeItem from src/PoolDetail.tsx (timestamp as in SwapTapeBase). -/
structure SwapTapeItem where
  id : String
  timestamp : Option ℤ
  txSignature : String
  userAddress : String
  amountIn : ℚ
  amountOut : ℚ
  impliedPrice : Option ℚ
  isToken0In : Bool
  slot : String
  sizeTier : SwapSizeTier
  speedTier : SwapSpeedTier
deriving DecidableEq, Repr

/-- Boolean form of the tape sort comparator: the JS comparator
(a, b) => Date(b).getTime() - Date(a).getTime() keeps a before b when the
difference is ≤ 0, i.e. when b's timestamp is at most a's; when either
getTime() is NaN the comparator returns NaN, which SortCompare coerces to +0
(equal order), embedded as true.  With a NaN timestamp present the comparator
is inconsistent, and ECMA-262 then leaves the sort order
implementation-defined; the embedding realizes the stable insertion-sort
behavior engines use for short arrays. -/
def swapAfterB (a b : SwapTapeBase) : Bool :=
  match a.timestamp, b.timestamp with
  | some ta, some tb => decide (tb ≤ ta)
  | _, _ => true

/-- Propositional form of the tape comparator. -/
def swapAfter (a b : SwapTapeBase) : Prop :=
  swapAfterB a b = true

instance : DecidableRel swapAfter :=
  fun a b => inferInstanceAs (Decidable (swapAfterB a b = true))

/-- Final map of fetchSwapTape over the sorted sequence: attach the size tier
from the batch's amountIn sample and the speed tier from the absolute delta
in seconds to the chronologically previous item (index - 1 of the sorted
order; null at index 0, NaN when either timestamp is unparseable). -/
def finalizeSwapTape (sorted : List SwapTapeBase) : List SwapTapeItem :=
  let amountValues := sorted.map (·.amountIn)
  sorted.mapIdx (fun index item =>
    let previous := if index = 0 then none else sorted[index - 1]?
    let deltaSeconds : Option (Option ℚ) := previous.map (fun prev =>
      match prev.timestamp, item.timestamp with
      | some tp, some tc => some (|((tp - tc : ℤ) : ℚ)| / 1000)
      | _, _ => none)
    { id := item.id
      timestamp := item.timestamp
      txSignature := item.txSignature
      userAddress := item.userAddress
      amountIn := item.amountIn
      amountOut := item.amountOut
      impliedPrice := item.impliedPrice
      isToken0In := item.isToken0In
      slot := item.slot
      sizeTier := sizeTier item.amountIn amountValues
      speedTier := speedTier deltaSeconds })

/-- Pure tape construction of fetchSwapTape (src/PoolDetail.tsx): normalize
each raw swap (absolute amounts, implied price when amountIn is positive,
the epoch ISO string — hence 0 ms — for a missing or empty timestamp, the
pre-sort index as id fallback), sort newest-first by timestamp, then
finalize with tiers; the surrounding network fetch goes through
getIndexerData. -/
def buildSwapTape (swaps : List IndexerSwap) : List SwapTapeItem :=
  let normalized : List SwapTapeBase := swaps.mapIdx (fun index swap =>
    let timestamp := swap.timestamp.getD (some 0)
    let amountIn := |toNumber swap.amount_in|
    let amountOut := |toNumber swap.amount_out|
    { id := swap.id.getD (toString index)
      timestamp := timestamp
      txSignature := swap.tx_sig.getD ""
      userAddress := swap.user_address.getD ""
      amountIn := amountIn
      amountOut := amountOut
      impliedPrice := if amountIn > 0 then some (amountOut / amountIn) else none
      isToken0In := swap.is_token0_in
      slot := swap.slot.getD "" })
  finalizeSwapTape (List.insertionSort swapAfter normalized)

/-- Newest-first order on possibly-NaN timestamps: every parsed pair is in
descending order (vacuous against a NaN side). -/
def tsGE (a b : Option ℤ) : Prop :=
  ∀ ta ∈ a, ∀ tb ∈ b, tb ≤ ta

instance : DecidableRel tsGE := fun a b =>
  match a, b with
  | some ta, some tb =>
    if h : tb ≤ ta then .isTrue (by simp [tsGE, h]) else .isFalse (by simp [tsGE, h])
  | some _, none => .isTrue (by simp [tsGE])
  | none, _ => .isTrue (by simp [tsGE])

theorem orderedInsert_swapAfter_sorted (a : SwapTapeBase) (l : List SwapTapeBase)
    (ha : a.timestamp ≠ none) (hl : ∀ x ∈ l, x.timestamp ≠ none)
    (hs : l.Sorted swapAfter) :
    (l.orderedInsert swapAfter a).Sorted swapAfter := by
  induction l with
  | nil => simp [List.orderedInsert]
  | cons b t ih =>
    have hb : b.timestamp ≠ none := hl b (List.mem_cons_self b t)
    have ht : ∀ x ∈ t, x.timestamp ≠ none := fun x hx => hl x (List.mem_cons_of_mem b hx)
    cases hta : a.timestamp with
    | none => exact absurd hta ha
    | some ta =>
    cases htb : b.timestamp with
    | none => exact absurd htb hb
    | some tb =>
    rw [List.orderedInsert]
    by_cases hab : swapAfter a b
    · rw [if_pos hab]
      refine List.sorted_cons.mpr ⟨?_, hs⟩
      intro y hy
      rcases List.mem_cons.mp hy with rfl | hyt
      · exact hab
      · cases hty : y.timestamp with
        | none => exact absurd hty (ht y hyt)
        | some ty =>
        have hby : swapAfter b y := (List.sorted_cons.mp hs).1 y hyt
        have h1 : tb ≤ ta := by
          simpa [swapAfter, swapAfterB, hta, htb] using hab
        have h2 : ty ≤ tb := by
          simpa [swapAfter, swapAfterB, htb, hty] using hby
        simp only [swapAfter, swapAfterB, hta, hty, decide_eq_true_eq]
        omega
    · rw [if_neg hab]
      have hsub := ih ht (List.sorted_cons.mp hs).2
      refine List.sorted_cons.mpr ⟨?_, hsub⟩
      intro y hy
      rcases (List.mem_orderedInsert swapAfter).mp hy with rfl | hyt
      · have hlt : ¬ (tb ≤ ta) := by
          intro hc
          exact hab (by simp [swapAfter, swapAfterB, hta, htb, hc])
        simp only [swapAfter, swapAfterB, hta, htb, decide_eq_true_eq]
        omega
      · exact (List.sorted_cons.mp hs).1 y hyt

theorem insertionSort_swapAfter_sorted (l : List SwapTapeBase)
    (hl : ∀ x ∈ l, x.timestamp ≠ none) :
    (List.insertionSort swapAfter l).Sorted swapAfter := by
  induction l with
  | nil => simp
  | cons a t ih =>
    have hsub : ∀ x ∈ t, x.timestamp ≠ none :=
      fun x hx => hl x (List.mem_cons_of_mem a hx)
    have hparse : ∀ x ∈ List.insertionSort swapAfter t, x.timestamp ≠ none :=
      fun x hx => hsub x ((List.perm_insertionSort swapAfter t).mem_iff.mp hx)
    simp only [List.insertionSort]
    exact orderedInsert_swapAfter_sorted a _ (hl a (List.mem_cons_self a t)) hparse
      (ih hsub)

theorem finalizeSwapTape_spec (S : List SwapTapeBase)
    (hS : (List.insertionSort swapAfter S).Sorted swapAfter)
    (hparse : ∀ x ∈ S, x.timestamp ≠ none) :
    ((finalizeSwapTape (List.insertionSort swapAfter S)).map (·.timestamp)).Sorted tsGE
    ∧ (∀ h0 : 0 < (finalizeSwapTape (List.insertionSort swapAfter S)).length,
        ((finalizeSwapTape (List.insertionSort swapAfter S)).get ⟨0, h0⟩).speedTier =
          SwapSpeedTier.Normal)
    ∧ (∀ i (hi1 : i + 1 < (finalizeSwapTape (List.insertionSort swapAfter S)).length)
          (hi : i < (finalizeSwapTape (List.insertionSort swapAfter S)).length),
        ((finalizeSwapTape (List.insertionSort swapAfter S)).get ⟨i + 1, hi1⟩).speedTier =
          (if |((((finalizeSwapTape (List.insertionSort swapAfter S)).get
                    ⟨i, hi⟩).timestamp.getD 0 -
                  ((finalizeSwapTape (List.insertionSort swapAfter S)).get
                    ⟨i + 1, hi1⟩).timestamp.getD 0 : ℤ) : ℚ)| / 1000 < 45
           then SwapSpeedTier.Fast
           else if |((((finalizeSwapTape (List.insertionSort swapAfter S)).get
                    ⟨i, hi⟩).timestamp.getD 0 -
                  ((finalizeSwapTape (List.insertionSort swapAfter S)).get
                    ⟨i + 1, hi1⟩).timestamp.getD 0 : ℤ) : ℚ)| / 1000 > 300
           then SwapSpeedTier.Slow
           else SwapSpeedTier.Normal))
    ∧ (∀ item ∈ finalizeSwapTape (List.insertionSort swapAfter S),
        item.sizeTier =
          (if item.amountIn ≤
              quantile ((finalizeSwapTape (List.insertionSort swapAfter S)).map
                (·.amountIn)) 0.25
           then SwapSizeTier.S
           else if item.amountIn ≤
              quantile ((finalizeSwapTape (List.insertionSort swapAfter S)).map
                (·.amountIn)) 0.5
           then SwapSizeTier.M
           else if item.amountIn ≤
              quantile ((finalizeSwapTape (List.insertionSort swapAfter S)).map
                (·.amountIn)) 0.75
           then SwapSizeTier.L
           else SwapSizeTier.XL)) := by
  set T := List.insertionSort swapAfter S with hT
  have hparseT : ∀ x ∈ T, x.timestamp ≠ none :=
    fun x hx => hparse x ((List.perm_insertionSort swapAfter S).mem_iff.mp hx)
  have hlen : (finalizeSwapTape T).length = T.length := by
    simp [finalizeSwapTape]
  have hts : ∀ j (hjS : j < T.length) (hj : j < (finalizeSwapTape T).length),
      ((finalizeSwapTape T).get ⟨j, hj⟩).timestamp = (T.get ⟨j, hjS⟩).timestamp := by
    intro j hjS hj
    simp [finalizeSwapTape]
  have hamount : ∀ j (hjS : j < T.length) (hj : j < (finalizeSwapTape T).length),
      ((finalizeSwapTape T).get ⟨j, hj⟩).amountIn = (T.get ⟨j, hjS⟩).amountIn := by
    intro j hjS hj
    simp [finalizeSwapTape]
  have hsize : ∀ j (hjS : j < T.length) (hj : j < (finalizeSwapTape T).length),
      ((finalizeSwapTape T).get ⟨j, hj⟩).sizeTier =
        sizeTier (T.get ⟨j, hjS⟩).amountIn (T.map (·.amountIn)) := by
    intro j hjS hj
    simp [finalizeSwapTape]
  have hAm : (finalizeSwapTape T).map (·.amountIn) = T.map (·.amountIn) := by
    refine List.ext_getElem (by simp [hlen]) ?_
    intro j hj hj2
    have hjS : j < T.length := by simpa using hj2
    have hjT : j < (finalizeSwapTape T).length := by simpa [hlen] using hjS
    simpa using hamount j hjS hjT
  refine ⟨?_, ?_, ?_, ?_⟩
  · refine List.pairwise_map.mpr ?_
    refine List.pairwise_iff_get.mpr ?_
    intro i j hij
    have hiS : (i : ℕ) < T.length := by rw [← hlen]; exact i.isLt
    have hjS : (j : ℕ) < T.length := by rw [← hlen]; exact j.isLt
    have hpair := List.pairwise_iff_getElem.mp hS i j hiS hjS hij
    have h1 := hts i hiS i.isLt
    have h2 := hts j hjS j.isLt
    simp only [List.get_eq_getElem] at h1 h2 ⊢
    rw [h1, h2]
    intro ta hta tb htb
    have hmemi : T[(i : ℕ)].timestamp = some ta := hta
    have hmemj : T[(j : ℕ)].timestamp = some tb := htb
    simpa [swapAfter, swapAfterB, hmemi, hmemj] using hpair
  · intro h0
    simp [finalizeSwapTape, speedTier]
  · intro i hi1 hi
    have hiS : i < T.length := by rw [← hlen]; exact hi
    have hi1S : i + 1 < T.length := by rw [← hlen]; exact hi1
    cases htp : T[i].timestamp with
    | none => exact absurd htp (hparseT _ (List.getElem_mem hiS))
    | some tp =>
    cases htc : T[i + 1].timestamp with
    | none => exact absurd htc (hparseT _ (List.getElem_mem hi1S))
    | some tc =>
    have hstep : ((finalizeSwapTape T).get ⟨i + 1, hi1⟩).speedTier =
        speedTier (some (some (|((tp - tc : ℤ) : ℚ)| / 1000))) := by
      simp [finalizeSwapTape, List.getElem?_eq_getElem hiS, htp, htc]
    rw [hstep]
    have h1 := hts i hiS hi
    have h2 := hts (i + 1) hi1S hi1
    simp only [List.get_eq_getElem] at h1 h2 ⊢
    simp only [h1, h2, htp, htc, Option.getD_some, speedTier]
  · intro item hmem
    rcases List.mem_iff_getElem.mp hmem with ⟨j, hj, hitem⟩
    have hjS : j < T.length := by rw [← hlen]; exact hj
    have h1 := hsize j hjS hj
    have h2 := hamount j hjS hj
    simp only [List.get_eq_getElem] at h1 h2
    rw [← hitem, h1, hAm, h2]
    simp only [sizeTier]

/-- C8 counterexample: a batch holding a swap with a non-empty unparseable
timestamp between two parseable ones.  The unparseable timestamp makes every
comparison against it NaN, hence equal-order, so the 2000 ms swap is never
compared with the 5000 ms swap and stays in front of it: the output is not
sorted newest-first, refuting the claim as stated over all batches. -/
theorem buildSwapTape_unparseable_counterexample :
    ((buildSwapTape
        [⟨none, some (some 2000), none, none, some 1, none, false, none⟩,
         ⟨none, some none, none, none, some 1, none, false, none⟩,
         ⟨none, some (some 5000), none, none, some 1, none, false, none⟩]).map
      (·.timestamp)) = [some 2000, none, some 5000]
    ∧ ¬ (([some (2000 : ℤ), none, some 5000] : List (Option ℤ)).Sorted tsGE) := by
  constructor
  · rfl
  · intro h
    have := List.pairwise_iff_getElem.mp h 0 2 (by decide) (by decide) (by decide)
    have h52 : (5000 : ℤ) ≤ 2000 := this 2000 rfl 5000 rfl
    omega

/-- C8 amended: for every batch of raw swaps in which every present timestamp
parses (none is a non-empty string new Date cannot parse — those feed NaN
into the sort comparator, whose order ECMA-262 leaves implementation-defined),
buildSwapTape returns items sorted newest-first by timestamp; the item at
index 0 of the returned sequence has speedTier Normal; every item at index
i+1 has speedTier Fast when the absolute timestamp delta in seconds to the
item at index i of the sorted sequence is below 45, Slow when above 300,
Normal otherwise; and each item's sizeTier is S/M/L/XL according to whether
its amountIn is at or below the 25th, 50th, 75th percentile of the batch's
full amountIn sample, or above it. -/
theorem buildSwapTape_spec (swaps : List IndexerSwap)
    (hswaps : ∀ s ∈ swaps, s.timestamp ≠ some none) :
    ((buildSwapTape swaps).map (·.timestamp)).Sorted tsGE
    ∧ (∀ h0 : 0 < (buildSwapTape swaps).length,
        ((buildSwapTape swaps).get ⟨0, h0⟩).speedTier = SwapSpeedTier.Normal)
    ∧ (∀ i (hi1 : i + 1 < (buildSwapTape swaps).length)
          (hi : i < (buildSwapTape swaps).length),
        ((buildSwapTape swaps).get ⟨i + 1, hi1⟩).speedTier =
          (if |((((buildSwapTape swaps).get ⟨i, hi⟩).timestamp.getD 0 -
                  ((buildSwapTape swaps).get ⟨i + 1, hi1⟩).timestamp.getD 0 : ℤ) : ℚ)|
                / 1000 < 45
           then SwapSpeedTier.Fast
           else if |((((buildSwapTape swaps).get ⟨i, hi⟩).timestamp.getD 0 -
                  ((buildSwapTape swaps).get ⟨i + 1, hi1⟩).timestamp.getD 0 : ℤ) : ℚ)|
                / 1000 > 300
           then SwapSpeedTier.Slow
           else SwapSpeedTier.Normal))
    ∧ (∀ item ∈ buildSwapTape swaps,
        item.sizeTier =
          (if item.amountIn ≤ quantile ((buildSwapTape swaps).map (·.amountIn)) 0.25
           then SwapSizeTier.S
           else if item.amountIn ≤ quantile ((buildSwapTape swaps).map (·.amountIn)) 0.5
           then SwapSizeTier.M
           else if item.amountIn ≤ quantile ((buildSwapTape swaps).map (·.amountIn)) 0.75
           then SwapSizeTier.L
           else SwapSizeTier.XL)) := by
  have hnorm : ∀ x ∈ swaps.mapIdx (fun index swap =>
      let timestamp := swap.timestamp.getD (some 0)
      let amountIn := |toNumber swap.amount_in|
      let amountOut := |toNumber swap.amount_out|
      ({ id := swap.id.getD (toString index)
         timestamp := timestamp
         txSignature := swap.tx_sig.getD ""
         userAddress := swap.user_address.getD ""
         amountIn := amountIn
         amountOut := amountOut
         impliedPrice := if amountIn > 0 then some (amountOut / amountIn) else none
         isToken0In := swap.is_token0_in
         slot := swap.slot.getD "" } : SwapTapeBase)), x.timestamp ≠ none := by
    intro x hx
    rcases List.mem_iff_getElem.mp hx with ⟨j, hj, hxeq⟩
    have hjs : j < swaps.length := by simpa using hj
    have hs := hswaps swaps[j] (List.getElem_mem hjs)
    have hxts : x.timestamp = swaps[j].timestamp.getD (some 0) := by
      rw [← hxeq]
      simp
    rw [hxts]
    cases hraw : swaps[j].timestamp with
    | none => simp
    | some v =>
      cases v with
      | none => exact absurd hraw hs
      | some t => simp
  exact finalizeSwapTape_spec _ (insertionSort_swapAfter_sorted _ hnorm) hnorm

/-- Witness for C8's amended theorem at a concrete one-swap batch with a
parseable timestamp: the top of the tape has speed tier Normal. -/
theorem buildSwapTape_spec_witness :
    ((buildSwapTape [⟨none, some (some 1000), none, none, some 5, none, false, none⟩]).get
      ⟨0, by decide⟩).speedTier = SwapSpeedTier.Normal :=
  (buildSwapTape_spec [⟨none, some (some 1000), none, none, some 5, none, false, none⟩]
    (by decide)).2.1 (by decide)

end Omnipair
